import Mathlib

/-!
Verification of the simpleHttpServer repository (httpMessage.h / httpMessage.cpp /
httpServer.h / httpServer.cpp) against its natural-language specification.

The C++ sources are shallowly embedded: message texts are `List Char` (the code is
ASCII throughout, so C++ byte strings and Lean char lists agree), `std::map` becomes
a key-sorted association list (so iteration order matches), exceptions become an
`Except` monad carrying the C++ exception type that the catch clauses discriminate
on, and the kqueue event handlers become pure step functions from I/O outcomes to
the action the handler performs (register / close / retry).
-/

namespace SimpleHttpServer

/-- HTTP methods, from `enum class HttpMethod` in httpMessage.h. -/
inductive HttpMethod where
  | GET | HEAD | POST | PUT | DELETE | CONNECT | OPTIONS | TRACE | PATCH
deriving DecidableEq, Repr

/-- HTTP versions, from `enum class HttpVersion` in httpMessage.h. -/
inductive HttpVersion where
  | HTTP_0_9 | HTTP_1_0 | HTTP_1_1 | HTTP_2_0
deriving DecidableEq, Repr

/-- HTTP status codes, from `enum class HttpStatusCode` in httpMessage.h. -/
inductive HttpStatusCode where
  | Continue | SwitchingProtocols
  | Ok | Created | Accepted | NonAuthoritativeInformation | NoContent
  | ResetContent | PartialContent
  | MultipleChoices | MovedPermanently | Found | NotModified
  | BadRequest | Unauthorized | Forbidden | NotFound | MethodNotAllowed
  | RequestTimeout | ImATeapot
  | InternalServerError | NotImplemented | BadGateway | ServiceUnavailable
  | GatewayTimeout | HttpVersionNotSupported
deriving DecidableEq, Repr

/-- The numeric value of each enumerator of `HttpStatusCode` (httpMessage.h). -/
def statusCodeToNat : HttpStatusCode → Nat
  | .Continue => 100
  | .SwitchingProtocols => 101
  | .Ok => 200
  | .Created => 201
  | .Accepted => 202
  | .NonAuthoritativeInformation => 203
  | .NoContent => 204
  | .ResetContent => 205
  | .PartialContent => 206
  | .MultipleChoices => 300
  | .MovedPermanently => 301
  | .Found => 302
  | .NotModified => 304
  | .BadRequest => 400
  | .Unauthorized => 401
  | .Forbidden => 403
  | .NotFound => 404
  | .MethodNotAllowed => 405
  | .RequestTimeout => 408
  | .ImATeapot => 418
  | .InternalServerError => 500
  | .NotImplemented => 501
  | .BadGateway => 502
  | .ServiceUnavailable => 503
  | .GatewayTimeout => 504
  | .HttpVersionNotSupported => 505

/-- `toString(HttpMethod)` from httpMessage.cpp. -/
def toStringHttpMethod : HttpMethod → List Char
  | .GET => "GET".data
  | .HEAD => "HEAD".data
  | .POST => "POST".data
  | .PUT => "PUT".data
  | .DELETE => "DELETE".data
  | .CONNECT => "CONNECT".data
  | .OPTIONS => "OPTIONS".data
  | .TRACE => "TRACE".data
  | .PATCH => "PATCH".data

/-- `toString(HttpVersion)` from httpMessage.cpp. -/
def toStringHttpVersion : HttpVersion → List Char
  | .HTTP_0_9 => "HTTP/0.9".data
  | .HTTP_1_0 => "HTTP/1.0".data
  | .HTTP_1_1 => "HTTP/1.1".data
  | .HTTP_2_0 => "HTTP/2.0".data

/-- `toString(HttpStatusCode)` from httpMessage.cpp: only thirteen codes have an
explicit case; the `default` branch returns the empty string. -/
def toStringHttpStatusCode : HttpStatusCode → List Char
  | .Continue => "Continue".data
  | .Ok => "OK".data
  | .Accepted => "Accepted".data
  | .MovedPermanently => "Moved Permanently".data
  | .Found => "Found".data
  | .BadRequest => "Bad Request".data
  | .Forbidden => "Forbidden".data
  | .NotFound => "Not Found".data
  | .MethodNotAllowed => "Method Not Allowed".data
  | .ImATeapot => "I\x27m a Teapot".data
  | .InternalServerError => "Internal Server Error".data
  | .NotImplemented => "Not Implemented".data
  | .BadGateway => "Bad Gateway".data
  | _ => []

/-- ASCII `toupper`, as used by `stringToMethod` / `stringToVersion`. -/
def cToUpper (c : Char) : Char :=
  if 'a' ≤ c ∧ c ≤ 'z' then Char.ofNat (c.toNat - 32) else c

/-- ASCII `tolower`, as used by `Uri::SetPathToLowercase` in uri.h. -/
def cToLower (c : Char) : Char :=
  if 'A' ≤ c ∧ c ≤ 'Z' then Char.ofNat (c.toNat + 32) else c

/-- Lowercasing a path, `Uri::SetPathToLowercase` (uri.h): the Uri constructor and
`setPath` both apply this, so every stored path is lowercase. -/
def uriNormalize (path : List Char) : List Char :=
  path.map cToLower

/-- `isspace` of the C locale: space, tab, newline, vertical tab, form feed,
carriage return. -/
def cIsSpace (c : Char) : Bool :=
  c = ' ' || c = '\t' || c = '\n' || c = '\x0b' || c = '\x0c' || c = '\r'

/-- `std::string::operator<`: lexicographic byte comparison, used by `std::map`
to order header keys. -/
def strLt : List Char → List Char → Bool
  | [], [] => false
  | [], _ :: _ => true
  | _ :: _, [] => false
  | a :: as, b :: bs =>
    if a < b then true else if b < a then false else strLt as bs

/-- A header map: the key-sorted association list behind
`std::map<std::string, std::string> headers_` (httpMessage.h). -/
abbrev HeaderMap : Type := List (List Char × List Char)

/-- `setHeader` (httpMessage.h): `headers_[key] = value` inserts or overwrites,
keeping the map sorted by key. -/
def setHeader : HeaderMap → List Char → List Char → HeaderMap
  | [], k, v => [(k, v)]
  | (k0, v0) :: rest, k, v =>
    if strLt k k0 then (k, v) :: (k0, v0) :: rest
    else if strLt k0 k then (k0, v0) :: setHeader rest k v
    else (k0, v) :: rest

/-- Header lookup (`headers_.count` / `headers_.at` in `header()`). -/
def lookupHeader : HeaderMap → List Char → Option (List Char)
  | [], _ => none
  | (k0, v0) :: rest, k => if k = k0 then some v0 else lookupHeader rest k

/-- The serialized header block: one `Key: Value\r\n` line per map entry, in map
(key) order, as emitted by both `toString` overloads in httpMessage.cpp. -/
def headersText : HeaderMap → List Char
  | [] => []
  | (k, v) :: rest => k ++ ": ".data ++ v ++ "\r\n".data ++ headersText rest

/-- Decimal rendering of a length, `std::to_string(content_.length())`. -/
def natDec (n : Nat) : List Char :=
  (Nat.repr n).data

/-- The literal key written by `SetContentLength` (httpMessage.h). -/
def contentLengthKey : List Char :=
  "Content-Length".data

/-- An HTTP response object: `HttpResponse` with the `HttpMessageInferace` fields
(httpMessage.h). The constructor taking a status code leaves version HTTP/1.1,
headers empty and content empty. -/
structure HttpResponse where
  version : HttpVersion := .HTTP_1_1
  statusCode : HttpStatusCode := .Ok
  headers : HeaderMap := []
  content : List Char := []
deriving DecidableEq, Repr

/-- `HttpResponse(HttpStatusCode)` constructor. -/
def mkResponse (c : HttpStatusCode) : HttpResponse :=
  { statusCode := c }

/-- `setContent` (httpMessage.h): store the body, then `SetContentLength` sets the
Content-Length header to the decimal byte length of the stored body. -/
def setContent (r : HttpResponse) (s : List Char) : HttpResponse :=
  { r with
    content := s
    headers := setHeader r.headers contentLengthKey (natDec s.length) }

/-- `setHeader` on a response object. -/
def respSetHeader (r : HttpResponse) (k v : List Char) : HttpResponse :=
  { r with headers := setHeader r.headers k v }

/-- `toString(const HttpResponse&, bool sendContent)` (httpMessage.cpp): status
line `<version> <numeric code> <reason>\r\n`, the header lines, a blank line, and
the body exactly when `sendContent` is true. -/
def encodeResponse (r : HttpResponse) (sendContent : Bool) : List Char :=
  toStringHttpVersion r.version ++ " ".data
    ++ natDec (statusCodeToNat r.statusCode) ++ " ".data
    ++ toStringHttpStatusCode r.statusCode ++ "\r\n".data
    ++ headersText r.headers ++ "\r\n".data
    ++ (if sendContent then r.content else [])

/-- The C++ exception kinds the catch clauses of `HandleHttpData` discriminate
on, with the carried `what()` message. `invalidArgument` is `std::invalid_argument`
(caught first), `logicError` a plain `std::logic_error` (caught second; note
`std::invalid_argument` derives from it but is intercepted by the earlier clause),
and `otherException` any other `std::exception` (caught last). -/
inductive CppExc where
  | invalidArgument (msg : List Char)
  | logicError (msg : List Char)
  | otherException (msg : List Char)
deriving DecidableEq, Repr

instance instDecEqExcept {ε α : Type} [DecidableEq ε] [DecidableEq α] :
    DecidableEq (Except ε α) := fun x y =>
  match x, y with
  | .ok a, .ok b =>
    if h : a = b then isTrue (by subst h; rfl) else isFalse (by simp [h])
  | .error a, .error b =>
    if h : a = b then isTrue (by subst h; rfl) else isFalse (by simp [h])
  | .ok _, .error _ => isFalse (by simp)
  | .error _, .ok _ => isFalse (by simp)

/-- An HTTP request object: `HttpRequest` with the `HttpMessageInferace` fields
(httpMessage.h). `uriPath` is the `Uri` member, already lowercased by its
constructor. -/
structure HttpRequest where
  method : HttpMethod := .GET
  uriPath : List Char := []
  version : HttpVersion := .HTTP_1_1
  headers : HeaderMap := []
  content : List Char := []
deriving DecidableEq, Repr

/-- `stringToMethod` (httpMessage.cpp): uppercase the token and match it against
the nine method names; anything else throws `std::invalid_argument`. -/
def stringToMethod (s : List Char) : Except CppExc HttpMethod :=
  let u := s.map cToUpper
  if u = "GET".data then .ok .GET
  else if u = "HEAD".data then .ok .HEAD
  else if u = "POST".data then .ok .POST
  else if u = "PUT".data then .ok .PUT
  else if u = "DELETE".data then .ok .DELETE
  else if u = "CONNECT".data then .ok .CONNECT
  else if u = "OPTIONS".data then .ok .OPTIONS
  else if u = "TRACE".data then .ok .TRACE
  else if u = "PATCH".data then .ok .PATCH
  else .error (.invalidArgument "Unexpected HTTP method".data)

/-- `stringToVersion` (httpMessage.cpp): uppercase the token and match it against
the four version strings (HTTP/2 and HTTP/2.0 both map to 2.0); anything else
throws `std::invalid_argument`. -/
def stringToVersion (s : List Char) : Except CppExc HttpVersion :=
  let u := s.map cToUpper
  if u = "HTTP/0.9".data then .ok .HTTP_0_9
  else if u = "HTTP/1.0".data then .ok .HTTP_1_0
  else if u = "HTTP/1.1".data then .ok .HTTP_1_1
  else if u = "HTTP/2".data ∨ u = "HTTP/2.0".data then .ok .HTTP_2_0
  else .error (.invalidArgument "Unexpected HTTP version".data)

/-- Character-by-character prefix test (the comparison loop inside
`std::string::find`). -/
def isPrefixChars : List Char → List Char → Bool
  | [], _ => true
  | _ :: _, [] => false
  | a :: as, b :: bs => if a = b then isPrefixChars as bs else false

/-- `std::string::find(pat, 0)`: index of the first occurrence of `pat`. -/
def findSub (pat : List Char) : List Char → Option Nat
  | [] => if pat = [] then some 0 else none
  | c :: t =>
    if isPrefixChars pat (c :: t) then some 0
    else (findSub pat t).map (· + 1)

/-- Accumulator for `wsTokenize`: `cur` is the (reversed) token being read. -/
def wsTokenizeAux (cur : List Char) : List Char → List (List Char)
  | [] => if cur.isEmpty then [] else [cur.reverse]
  | c :: t =>
    if cIsSpace c then
      if cur.isEmpty then wsTokenizeAux [] t
      else cur.reverse :: wsTokenizeAux [] t
    else wsTokenizeAux (c :: cur) t

/-- Whitespace tokenization, the `iss >> method >> path >> version` extraction on
the start line: maximal runs of non-space characters, in order. -/
def wsTokenize (s : List Char) : List (List Char) :=
  wsTokenizeAux [] s

/-- Split at every newline character, keeping empty segments (an auxiliary for
`getlines`): `splitOnNl s` always has one more segment than `s` has newlines. -/
def splitOnNl : List Char → List (List Char)
  | [] => [[]]
  | c :: t =>
    if c = '\n' then [] :: splitOnNl t
    else
      match splitOnNl t with
      | [] => [[c]]
      | l :: ls => (c :: l) :: ls

/-- The sequence of lines produced by `while (std::getline(iss, line))` on a
string stream: each `getline` consumes through the next newline (or to the end),
and a trailing newline does not yield an extra empty line. -/
def getlines (s : List Char) : List (List Char) :=
  if s = [] then []
  else if s.getLast? = some '\n' then (splitOnNl s).dropLast
  else splitOnNl s

/-- One iteration of the header loop of `stringToRequest` (httpMessage.cpp):
`getline(headerStream, key, ':')` takes the text before the first colon,
`getline(headerStream, value)` the text after it (empty when there is no colon),
and `std::remove_if(..., isspace)` then deletes EVERY whitespace character from
both — leading, trailing and internal alike. -/
def parseHeaderLine (line : List Char) : List Char × List Char :=
  let key := line.takeWhile (fun c => c ≠ ':')
  let value :=
    if line.any (fun c => c = ':') then (line.dropWhile (fun c => c ≠ ':')).drop 1
    else []
  (key.filter (fun c => !cIsSpace c), value.filter (fun c => !cIsSpace c))

/-- The carriage-return/line-feed pair. -/
def crlf : List Char :=
  "\r\n".data

/-- The blank-line separator between headers and body. -/
def crlf2 : List Char :=
  "\r\n\r\n".data

/-- `stringToRequest` (httpMessage.cpp). Start line = text before the first
`\r\n` (throws `std::invalid_argument` when there is none); header block = text
between it and the first `\r\n\r\n`, body = the rest (both empty when no blank
line exists). The start line is whitespace-tokenized into method, path and
version (a missing token reads as the empty string; the `!iss.good() && !iss.eof()`
check can never fire on a string stream and is omitted). The method token is
parsed, the path lowercased by the `Uri` constructor, and a version token naming
a version other than the request object default HTTP/1.1 throws
`std::logic_error("HTTP version not supported")`. Each header line is processed
by `parseHeaderLine`, and `setContent` stores the body with its Content-Length. -/
def stringToRequest (s : List Char) : Except CppExc HttpRequest := do
  match findSub crlf s with
  | none => throw (.invalidArgument "Could not find request start line".data)
  | some rpos =>
    let startLine := s.take rpos
    let rest := s.drop (rpos + 2)
    let (headerLines, messageBody) :=
      match findSub crlf2 rest with
      | some r2 => (rest.take r2, rest.drop (r2 + 4))
      | none => ([], [])
    let toks := wsTokenize startLine
    let m ← stringToMethod (toks.getD 0 [])
    let uriPath := uriNormalize (toks.getD 1 [])
    let v ← stringToVersion (toks.getD 2 [])
    if v ≠ HttpVersion.HTTP_1_1 then
      throw (.logicError "HTTP version not supported".data)
    let hdrs := (getlines headerLines).foldl
      (fun h line =>
        let kv := parseHeaderLine line
        setHeader h kv.1 kv.2) []
    pure { method := m
           uriPath := uriPath
           version := .HTTP_1_1
           headers := setHeader hdrs contentLengthKey (natDec messageBody.length)
           content := messageBody }

/-- `kMaxBufferSize` (httpServer.h). -/
def kMaxBufferSize : Nat := 4096

/-- `kThreadPoolSize` (httpServer.h). -/
def kThreadPoolSize : Nat := 5

/-- `EventData` (httpServer.h): descriptor, total valid bytes, cursor into the
buffer for partial I/O, and the buffer itself (capacity `kMaxBufferSize`). The
default constructor zeroes everything. -/
structure EventData where
  fd : Nat := 0
  length : Nat := 0
  cursor : Nat := 0
  buffer : List Char := []
deriving DecidableEq, Repr

/-- A registered handler, `HttpRequestHandler_t`: it returns a response or throws
(`Except.error`) like any C++ callable. -/
abbrev HttpRequestHandler : Type := HttpRequest → Except CppExc HttpResponse

/-- The per-path method map, `std::map<HttpMethod, HttpRequestHandler_t>`, as an
association list. -/
abbrev MethodMap : Type := List (HttpMethod × HttpRequestHandler)

/-- The routing table `requestHandlers_`:
`std::map<Uri, std::map<HttpMethod, HttpRequestHandler_t>>`, keyed by the
(lowercased) URI path. -/
abbrev RoutingTable : Type := List (List Char × MethodMap)

/-- `std::map::find` on the routing table, by Uri equality (path equality, both
sides lowercased). -/
def lookupPath : RoutingTable → List Char → Option MethodMap
  | [], _ => none
  | (p, mm) :: rest, k => if k = p then some mm else lookupPath rest k

/-- `std::map::find` on a method map. -/
def lookupMethod : MethodMap → HttpMethod → Option HttpRequestHandler
  | [], _ => none
  | (m0, h0) :: rest, m => if m = m0 then some h0 else lookupMethod rest m

/-- `std::map::insert` on the method map: inserts only when the method is not yet
present (`insert` never overwrites an existing key). -/
def insertMethod : MethodMap → HttpMethod → HttpRequestHandler → MethodMap
  | [], m, h => [(m, h)]
  | (m0, h0) :: rest, m, h =>
    if m = m0 then (m0, h0) :: rest
    else (m0, h0) :: insertMethod rest m h

/-- `requestHandlers_[uri].insert(...)`: `operator[]` default-constructs the
method map for a new path, then `insert` adds the handler without overwriting. -/
def insertPath : RoutingTable → List Char → HttpMethod → HttpRequestHandler →
    RoutingTable
  | [], p, m, h => [(p, insertMethod [] m h)]
  | (p0, mm0) :: rest, p, m, h =>
    if p = p0 then (p0, insertMethod mm0 m h) :: rest
    else (p0, mm0) :: insertPath rest p m h

/-- `registerHttpRequestHandler(path, method, callback)` (httpServer.h): the
`Uri` constructor lowercases the path before it keys the routing table. -/
def registerHttpRequestHandler (t : RoutingTable) (path : List Char)
    (m : HttpMethod) (h : HttpRequestHandler) : RoutingTable :=
  insertPath t (uriNormalize path) m h

/-- `HttpServer::HandleHttpResponse` (httpServer.cpp): look up the request URI —
no entry gives 404 NotFound; then the method — no entry gives 405
MethodNotAllowed; otherwise call the registered handler (whose exceptions
propagate to the caller). -/
def HandleHttpResponse (t : RoutingTable) (req : HttpRequest) :
    Except CppExc HttpResponse :=
  match lookupPath t req.uriPath with
  | none => .ok (mkResponse .NotFound)
  | some mm =>
    match lookupMethod mm req.method with
    | none => .ok (mkResponse .MethodNotAllowed)
    | some h => h req

/-- The catch clauses of `HandleHttpData` (httpServer.cpp):
`std::invalid_argument` becomes 400 BadRequest, `std::logic_error` becomes 505
HttpVersionNotSupported, any other `std::exception` becomes 500
InternalServerError; each response body is the exception message `e.what()`. -/
def errorResponse : CppExc → HttpResponse
  | .invalidArgument m => setContent (mkResponse .BadRequest) m
  | .logicError m => setContent (mkResponse .HttpVersionNotSupported) m
  | .otherException m => setContent (mkResponse .InternalServerError) m

/-- The try block of `HandleHttpData` together with its catches, returning the
response and the method of the `httpRequest` local: when parsing throws, the
local keeps its default-constructed method GET; when the handler throws, the
parsed method is already stored. -/
def pipelineResponse (t : RoutingTable) (s : List Char) :
    HttpResponse × HttpMethod :=
  match stringToRequest s with
  | .error e => (errorResponse e, .GET)
  | .ok req =>
    match HandleHttpResponse t req with
    | .ok r => (r, req.method)
    | .error e => (errorResponse e, req.method)

/-- `HttpServer::HandleHttpData` (httpServer.cpp), at the level of the response
text: run the pipeline, then serialize with
`toString(httpResponse, httpRequest.method() != HttpMethod::HEAD)` — the body is
omitted exactly when the request method is HEAD. -/
def handleHttpDataString (t : RoutingTable) (s : List Char) : List Char :=
  let pr := pipelineResponse t s
  encodeResponse pr.1 (pr.2 ≠ HttpMethod.HEAD)

/-- The request text recovered from the buffer by
`std::string requestString(request.buffer)`: the C string stops at the first NUL
(the `EventData` buffer is zero-initialized, so received bytes are followed by
NULs). -/
def bufferToString (bytes : List Char) : List Char :=
  bytes.takeWhile (fun c => c ≠ '\x00')

/-- The response `EventData` built by the `byte_count > 0` branch together with
`HandleHttpData`: same descriptor, `cursor` 0 (default constructed), `length` the
encoded byte count, and the buffer holding the encoded response (`memcpy` can
place at most `kMaxBufferSize` bytes). -/
def mkResponseEvent (t : RoutingTable) (fd : Nat) (reqStr : List Char) :
    EventData :=
  let resp := handleHttpDataString t reqStr
  { fd := fd, length := resp.length, cursor := 0,
    buffer := resp.take kMaxBufferSize }

/-- What `recv` reported for a read-ready connection: `bytesRead bs` models a
return of `bs.length` (zero meaning peer close), the other two the error cases
split by `errno`. -/
inductive RecvOutcome where
  | bytesRead (bs : List Char)
  | wouldBlock
  | otherError
deriving DecidableEq, Repr

/-- The externally visible action the read branch of `HandleKqueueEvent` takes. -/
inductive ReadAction where
  /-- register the given state for EVFILT_WRITE on the descriptor; delete the
  request state. -/
  | respond (resp : EventData)
  /-- EV_DELETE the registration, `close` the descriptor, delete the state. -/
  | closeRetire
  /-- re-register the same request state for EVFILT_READ. -/
  | retryRead (req : EventData)
deriving Repr

/-- The `filter == EVFILT_READ` branch of `HttpServer::HandleKqueueEvent`
(httpServer.cpp): positive `recv` treats the buffer as a complete request, runs
`HandleHttpData` into a fresh response state registered for write-interest and
retires the request state; zero means peer close (deregister, close, retire);
EAGAIN/EWOULDBLOCK re-registers the same state for read-interest; any other
error deregisters, closes and retires. -/
def handleReadEvent (t : RoutingTable) (req : EventData) (o : RecvOutcome) :
    ReadAction :=
  match o with
  | .bytesRead bs =>
    if bs.length > 0 then
      .respond (mkResponseEvent t req.fd (bufferToString bs))
    else
      .closeRetire
  | .wouldBlock => .retryRead req
  | .otherError => .closeRetire

/-- What `send` reported for a write-ready connection: `sent n` models a
non-negative return of `n` bytes accepted (`send` is called with count
`response->length`, so `n ≤ length`), the other two the error cases split by
`errno`. -/
inductive SendOutcome where
  | sent (n : Nat)
  | wouldBlock
  | otherError
deriving DecidableEq, Repr

/-- The externally visible action the write branch of `HandleKqueueEvent`
takes. -/
inductive WriteAction where
  /-- re-register the updated state for EVFILT_WRITE (a partial send). -/
  | partialResend (resp : EventData)
  /-- everything sent: delete the write registration, register a fresh request
  state for EVFILT_READ on the descriptor, retire the response state. -/
  | completeSwitchToRead (freshReq : EventData)
  /-- EAGAIN/EWOULDBLOCK: re-register the same state for EVFILT_WRITE. -/
  | retryWrite (resp : EventData)
  /-- EV_DELETE the registration, `close` the descriptor, delete the state. -/
  | closeRetire
deriving Repr

/-- The `filter == EVFILT_WRITE` branch of `HttpServer::HandleKqueueEvent`
(httpServer.cpp): `send(fd, buffer + cursor, length, 0)` accepting fewer than
`length` bytes advances `cursor` and decrements `length` by exactly the accepted
count and re-registers write-interest; accepting all `length` bytes switches the
descriptor back to read-interest with a fresh zeroed state;
EAGAIN/EWOULDBLOCK re-registers write-interest unchanged; any other error
deregisters, closes and retires. -/
def handleWriteEvent (resp : EventData) (o : SendOutcome) : WriteAction :=
  match o with
  | .sent n =>
    if n < resp.length then
      .partialResend { resp with cursor := resp.cursor + n,
                                 length := resp.length - n }
    else
      .completeSwitchToRead { fd := resp.fd }
  | .wouldBlock => .retryWrite resp
  | .otherError => .closeRetire

/-- The bytes a `send` accepting `n` bytes actually transmits: `n` bytes starting
at `buffer + cursor`. -/
def sentChunk (resp : EventData) (n : Nat) : List Char :=
  (resp.buffer.drop resp.cursor).take n

/-- A run of write-ready events over the accepted-byte counts `ns`, driven by
`handleWriteEvent`: each step transmits its chunk; a partial send continues with
the updated state, a full send ends the connection's write phase (any remaining
counts are ignored), and the final state plus the concatenation of all
transmitted bytes is returned. -/
def sendRun (resp : EventData) : List Nat → EventData × List Char
  | [] => (resp, [])
  | n :: ns =>
    match handleWriteEvent resp (.sent n) with
    | .partialResend r =>
      let rest := sendRun r ns
      (rest.1, sentChunk resp n ++ rest.2)
    | _ => (resp, sentChunk resp n)

/-- Validity of a sequence of accepted-byte counts against the remaining length:
`send` is invoked with count `length`, so the OS accepts at most that many, and a
partial send accepts strictly fewer. -/
def validPartialSends : Nat → List Nat → Prop
  | _, [] => True
  | rem, n :: ns => n < rem ∧ validPartialSends (rem - n) ns

instance (rem : Nat) (ns : List Nat) : Decidable (validPartialSends rem ns) := by
  induction ns generalizing rem with
  | nil => exact isTrue trivial
  | cons n ns ih =>
    have h := ih (rem - n)
    exact instDecidableAnd

/-- One accept attempt seen by the listener loop: `none` is a failed
`accept` (negative return), `some fd` a new client descriptor. -/
abbrev AcceptOutcome : Type := Option Nat

/-- `HttpServer::Listen` (httpServer.cpp), as the list of (worker index,
descriptor) read-interest registrations it performs for a sequence of accept
outcomes, starting from round-robin position `w`: a failed accept only clears
the `active` flag and registers nothing; a successful accept registers the new
descriptor on worker `w`, then increments `w`, wrapping to 0 when it reaches
`kThreadPoolSize`. -/
def listenRegistrations (w : Nat) : List AcceptOutcome → List (Nat × Nat)
  | [] => []
  | none :: rest => listenRegistrations w rest
  | some fd :: rest =>
    (w, fd) :: listenRegistrations (if w + 1 = kThreadPoolSize then 0 else w + 1) rest

/-- The descriptors of the successful accepts, in order. -/
def acceptedFds (outcomes : List AcceptOutcome) : List Nat :=
  outcomes.filterMap id

/-- The individual steps `HttpServer::Stop` performs, in program order, before it
returns. -/
inductive StopAction where
  | setRunningFalse
  | joinListener
  | joinWorker (i : Nat)
  | closeWorkerKqueue (i : Nat)
  | closeListenSocket
deriving DecidableEq, Repr

/-- `HttpServer::Stop` (httpServer.cpp): clear `running_`, join the listener
thread, join each of the `kThreadPoolSize` worker threads, close each worker's
kqueue descriptor, close the listening socket — and only then return. Each
`join` returns only once its thread has exited. -/
def stopTrace : List StopAction :=
  [StopAction.setRunningFalse, StopAction.joinListener]
    ++ (List.range kThreadPoolSize).map StopAction.joinWorker
    ++ (List.range kThreadPoolSize).map StopAction.closeWorkerKqueue
    ++ [StopAction.closeListenSocket]

/-! ### Helper lemmas about the header map -/

theorem strLt_irrefl (a : List Char) : strLt a a = false := by
  induction a with
  | nil => rfl
  | cons c t ih => simp [strLt, ih]

theorem strLt_antisymm_eq :
    ∀ a b : List Char, strLt a b = false → strLt b a = false → a = b
  | [], [], _, _ => rfl
  | [], _ :: _, h1, _ => by simp [strLt] at h1
  | _ :: _, [], _, h2 => by simp [strLt] at h2
  | a :: as, b :: bs, h1, h2 => by
    simp only [strLt] at h1 h2
    by_cases hab : a < b
    · simp [hab] at h1
    · by_cases hba : b < a
      · simp [hba, hab] at h2
      · have hc : a = b := le_antisymm (not_lt.mp hba) (not_lt.mp hab)
        subst hc
        simp only [hab, if_neg, if_false] at h1 h2
        rw [strLt_antisymm_eq as bs (by simpa using h1) (by simpa using h2)]

theorem lookup_setHeader_self (h : HeaderMap) (k v : List Char) :
    lookupHeader (setHeader h k v) k = some v := by
  induction h with
  | nil => simp [setHeader, lookupHeader]
  | cons kv rest ih =>
    obtain ⟨k0, v0⟩ := kv
    simp only [setHeader]
    by_cases h1 : strLt k k0 = true
    · simp [h1, lookupHeader]
    · by_cases h2 : strLt k0 k = true
      · have hne : k ≠ k0 := by
          intro he
          subst he
          rw [strLt_irrefl] at h2
          simp at h2
        simp [h1, h2, lookupHeader, hne, ih]
      · have he : k = k0 :=
          strLt_antisymm_eq k k0 (by simpa using h1) (by simpa using h2)
        subst he
        simp [strLt_irrefl, lookupHeader]

theorem lookup_setHeader_ne (h : HeaderMap) (k k2 v : List Char) (hne : k ≠ k2) :
    lookupHeader (setHeader h k2 v) k = lookupHeader h k := by
  induction h with
  | nil => simp [setHeader, lookupHeader, hne]
  | cons kv rest ih =>
    obtain ⟨k0, v0⟩ := kv
    simp only [setHeader]
    by_cases h1 : strLt k2 k0 = true
    · simp [h1, lookupHeader, hne]
    · by_cases h2 : strLt k0 k2 = true
      · simp [h1, h2, lookupHeader, ih]
      · have he : k2 = k0 :=
          strLt_antisymm_eq k2 k0 (by simpa using h1) (by simpa using h2)
        subst he
        simp [h1, h2, lookupHeader, hne]

theorem mem_setHeader_self (h : HeaderMap) (k v : List Char) :
    (k, v) ∈ setHeader h k v := by
  induction h with
  | nil => simp [setHeader]
  | cons kv rest ih =>
    obtain ⟨k0, v0⟩ := kv
    simp only [setHeader]
    by_cases h1 : strLt k k0 = true
    · simp [h1]
    · by_cases h2 : strLt k0 k = true
      · simp [h1, h2, ih]
      · have he : k = k0 :=
          strLt_antisymm_eq k k0 (by simpa using h1) (by simpa using h2)
        subst he
        simp [strLt_irrefl]

theorem headersText_infix_of_mem (h : HeaderMap) (k v : List Char)
    (hm : (k, v) ∈ h) :
    List.IsInfix (k ++ ": ".data ++ v ++ crlf) (headersText h) := by
  induction h with
  | nil => simp at hm
  | cons kv rest ih =>
    obtain ⟨k0, v0⟩ := kv
    rcases List.mem_cons.mp hm with hhead | htail
    · obtain ⟨hk, hv⟩ := Prod.mk.injEq .. ▸ hhead
      subst hk
      subst hv
      exact ⟨[], headersText rest, by simp [headersText, crlf, List.append_assoc]⟩
    · obtain ⟨s, t, hst⟩ := ih htail
      exact ⟨k0 ++ ": ".data ++ v0 ++ crlf ++ s, t,
        by simp [headersText, crlf, ← hst, List.append_assoc]⟩

/-! ### C3: dispatch -/

/-- C3: for every routing table and parsed request, `HandleHttpResponse` returns
the registered handler's result unchanged when a handler exists for the
(normalized path, method) pair; a 405 MethodNotAllowed response when the path is
registered but the method is not; and a 404 NotFound response when the path is
not registered. -/
theorem c3_dispatch_cases (t : RoutingTable) (req : HttpRequest) :
    (∀ mm h, lookupPath t req.uriPath = some mm →
      lookupMethod mm req.method = some h →
      HandleHttpResponse t req = h req) ∧
    (∀ mm, lookupPath t req.uriPath = some mm →
      lookupMethod mm req.method = none →
      HandleHttpResponse t req = .ok (mkResponse .MethodNotAllowed)) ∧
    (lookupPath t req.uriPath = none →
      HandleHttpResponse t req = .ok (mkResponse .NotFound)) := by
  refine ⟨?_, ?_, ?_⟩
  · intro mm h hp hmth
    simp [HandleHttpResponse, hp, hmth]
  · intro mm hp hmth
    simp [HandleHttpResponse, hp, hmth]
  · intro hp
    simp [HandleHttpResponse, hp]

/-- Witness for C3 on a concrete one-entry table. -/
theorem c3_dispatch_cases_witness :
    HandleHttpResponse
        (registerHttpRequestHandler [] "/".data .GET
          (fun _ => .ok (setContent (mkResponse .Ok) "Hello, world\n".data)))
        { uriPath := "/".data, method := .GET }
      = .ok (setContent (mkResponse .Ok) "Hello, world\n".data) ∧
    HandleHttpResponse
        (registerHttpRequestHandler [] "/".data .GET
          (fun _ => .ok (setContent (mkResponse .Ok) "Hello, world\n".data)))
        { uriPath := "/".data, method := .POST }
      = .ok (mkResponse .MethodNotAllowed) ∧
    HandleHttpResponse
        (registerHttpRequestHandler [] "/".data .GET
          (fun _ => .ok (setContent (mkResponse .Ok) "Hello, world\n".data)))
        { uriPath := "/missing".data, method := .GET }
      = .ok (mkResponse .NotFound) := by
  refine ⟨?_, ?_, ?_⟩
  · exact (c3_dispatch_cases _ _).1 _
      (fun _ => .ok (setContent (mkResponse .Ok) "Hello, world\n".data)) rfl rfl
  · exact (c3_dispatch_cases _ _).2.1 _ rfl rfl
  · exact (c3_dispatch_cases _ _).2.2 rfl

/-! ### C10: empty reason phrases -/

/-- The thirteen status codes with an explicit case in `toString(HttpStatusCode)`
(httpMessage.cpp); every other code falls to the `default` branch. -/
def explicitReasonCodes : List HttpStatusCode :=
  [.Continue, .Ok, .Accepted, .MovedPermanently, .Found, .BadRequest,
   .Forbidden, .NotFound, .MethodNotAllowed, .ImATeapot, .InternalServerError,
   .NotImplemented, .BadGateway]

/-- C10: every status code without an explicit reason-phrase case — including
NoContent 204, HttpVersionNotSupported 505, ServiceUnavailable 503 and
GatewayTimeout 504 — maps to the empty reason string, and the encoded status
line of a response with such a code is version, numeric code, and an empty
reason phrase before the terminating CRLF. -/
theorem c10_empty_reason_phrase :
    (∀ c : HttpStatusCode, c ∉ explicitReasonCodes →
      toStringHttpStatusCode c = []) ∧
    (HttpStatusCode.NoContent ∉ explicitReasonCodes ∧
     HttpStatusCode.HttpVersionNotSupported ∉ explicitReasonCodes ∧
     HttpStatusCode.ServiceUnavailable ∉ explicitReasonCodes ∧
     HttpStatusCode.GatewayTimeout ∉ explicitReasonCodes) ∧
    (∀ (r : HttpResponse) (b : Bool), toStringHttpStatusCode r.statusCode = [] →
      encodeResponse r b =
        toStringHttpVersion r.version ++ " ".data
          ++ natDec (statusCodeToNat r.statusCode) ++ " \r\n".data
          ++ headersText r.headers ++ "\r\n".data
          ++ (if b then r.content else [])) := by
  refine ⟨?_, by decide, ?_⟩
  · intro c hc
    cases c <;> first
      | rfl
      | exact absurd (by decide) hc
  · intro r b h
    simp [encodeResponse, h]

/-- Witness for C10: the 505 response of the repository encodes with an empty
reason phrase. -/
theorem c10_empty_reason_phrase_witness :
    toStringHttpStatusCode .NoContent = [] ∧
    encodeResponse (mkResponse .HttpVersionNotSupported) true
      = "HTTP/1.1 505 \r\n\r\n".data := by
  constructor
  · exact c10_empty_reason_phrase.1 .NoContent (by decide)
  · have h := c10_empty_reason_phrase.2.2 (mkResponse .HttpVersionNotSupported)
      true rfl
    simpa [mkResponse, headersText, toStringHttpVersion, statusCodeToNat,
      natDec] using h

/-! ### C5: HEAD omits only the body -/

/-- C5: encoding a response with the body omitted — which `HandleHttpData` selects
exactly when the request method is HEAD — yields the same status line and
headers (byte-for-byte the same prefix, Content-Length included) as encoding with
the body, and transmits zero body bytes: the full encoding is the body-less
encoding followed by exactly the content. -/
theorem c5_head_omits_body_only (r : HttpResponse) (t : RoutingTable)
    (s : List Char) :
    encodeResponse r true = encodeResponse r false ++ r.content ∧
    ((pipelineResponse t s).2 = HttpMethod.HEAD →
      handleHttpDataString t s = encodeResponse (pipelineResponse t s).1 false) ∧
    ((pipelineResponse t s).2 ≠ HttpMethod.HEAD →
      handleHttpDataString t s = encodeResponse (pipelineResponse t s).1 true) := by
  refine ⟨?_, ?_, ?_⟩
  · simp [encodeResponse, List.append_assoc]
  · intro h
    simp [handleHttpDataString, h]
  · intro h
    simp [handleHttpDataString, h]

/-- Witness for C5: a HEAD request to a registered path produces the header
section of the GET response with no body bytes. -/
theorem c5_head_omits_body_only_witness :
    encodeResponse (setContent (mkResponse .Ok) "Hello, world\n".data) true
      = encodeResponse (setContent (mkResponse .Ok) "Hello, world\n".data) false
          ++ "Hello, world\n".data ∧
    handleHttpDataString
        (registerHttpRequestHandler [] "/".data .HEAD
          (fun _ => .ok (setContent (mkResponse .Ok) "Hello, world\n".data)))
        "HEAD / HTTP/1.1\r\n\r\n".data
      = encodeResponse
          (pipelineResponse
            (registerHttpRequestHandler [] "/".data .HEAD
              (fun _ => .ok (setContent (mkResponse .Ok) "Hello, world\n".data)))
            "HEAD / HTTP/1.1\r\n\r\n".data).1 false := by
  constructor
  · exact (c5_head_omits_body_only
      (setContent (mkResponse .Ok) "Hello, world\n".data) [] []).1
  · exact (c5_head_omits_body_only (mkResponse .Ok)
      (registerHttpRequestHandler [] "/".data .HEAD
        (fun _ => .ok (setContent (mkResponse .Ok) "Hello, world\n".data)))
      "HEAD / HTTP/1.1\r\n\r\n".data).2.1 (by rfl)

/-! ### C6: Content-Length (corrected) -/

/-- C6 cannot hold for every encoded response: a response whose content was never
set — here the bare 500 object, whose encoding the repository test suite pins as
`HTTP/1.1 500 Internal Server Error\r\n\r\n` — carries no Content-Length header
at all, so its encoding does not contain a Content-Length equal to its body
length. -/
theorem c6_counterexample :
    lookupHeader (mkResponse .InternalServerError).headers contentLengthKey
      = none ∧
    encodeResponse (mkResponse .InternalServerError) true
      = "HTTP/1.1 500 Internal Server Error\r\n\r\n".data ∧
    (mkResponse .InternalServerError).content.length = 0 ∧
    ¬ List.IsInfix (contentLengthKey ++ ": ".data ++ natDec 0 ++ crlf)
        (encodeResponse (mkResponse .InternalServerError) true) := by
  refine ⟨rfl, by decide, rfl, ?_⟩
  intro h
  have h2 := h.sublist.subset
  have : 'g' ∈ "HTTP/1.1 500 Internal Server Error\r\n\r\n".data := by
    apply h2
    decide
  simp at this

/-- C6 as amended: after every `setContent(s)` the message's Content-Length
header equals the decimal representation of the byte length of `s`; the header is
recomputed on every later content change; and an encoded response whose content
has been set carries that Content-Length header line. -/
theorem c6_content_length_amended (r : HttpResponse) (s s2 : List Char)
    (b : Bool) :
    lookupHeader (setContent r s).headers contentLengthKey
      = some (natDec s.length) ∧
    (setContent r s).content = s ∧
    lookupHeader (setContent (setContent r s) s2).headers contentLengthKey
      = some (natDec s2.length) ∧
    List.IsInfix (contentLengthKey ++ ": ".data ++ natDec s.length ++ crlf)
      (encodeResponse (setContent r s) b) := by
  refine ⟨lookup_setHeader_self .., rfl, lookup_setHeader_self .., ?_⟩
  have hmem : (contentLengthKey, natDec s.length) ∈ (setContent r s).headers :=
    mem_setHeader_self ..
  have hinfix := headersText_infix_of_mem _ _ _ hmem
  obtain ⟨u, w, huw⟩ := hinfix
  refine ⟨toStringHttpVersion r.version ++ " ".data
      ++ natDec (statusCodeToNat r.statusCode) ++ " ".data
      ++ toStringHttpStatusCode r.statusCode ++ "\r\n".data ++ u,
    w ++ "\r\n".data ++ (if b then s else []), ?_⟩
  have huw2 : u ++ (contentLengthKey ++ ": ".data ++ natDec s.length ++ crlf) ++ w
      = headersText (setHeader r.headers contentLengthKey (natDec s.length)) :=
    huw
  simp only [encodeResponse, setContent]
  rw [← huw2]
  simp [crlf, List.append_assoc]

/-! ### C8: header whitespace handling (corrected) -/

theorem takeWhile_ne_colon_append (k v : List Char) (h : ':' ∉ k) :
    (k ++ ':' :: v).takeWhile (fun c => c ≠ ':') = k := by
  induction k with
  | nil =>
    simp only [List.nil_append, List.takeWhile_cons]
    rw [if_neg (by simp)]
  | cons c t ih =>
    have hc : c ≠ ':' := fun he => h (he ▸ List.mem_cons_self c t)
    have ht : ':' ∉ t := fun hm => h (List.mem_cons_of_mem c hm)
    simp only [List.cons_append, List.takeWhile_cons]
    rw [if_pos (by simp [hc]), ih ht]

theorem dropWhile_ne_colon_append (k v : List Char) (h : ':' ∉ k) :
    (k ++ ':' :: v).dropWhile (fun c => c ≠ ':') = ':' :: v := by
  induction k with
  | nil =>
    simp only [List.nil_append, List.dropWhile_cons]
    rw [if_neg (by simp)]
  | cons c t ih =>
    have hc : c ≠ ':' := fun he => h (he ▸ List.mem_cons_self c t)
    have ht : ':' ∉ t := fun hm => h (List.mem_cons_of_mem c hm)
    simp only [List.cons_append, List.dropWhile_cons]
    rw [if_pos (by simp [hc]), ih ht]

/-- `parseHeaderLine` on a line `Key: Value` whose key has no colon splits at the
first colon and removes every whitespace character from both sides. -/
theorem parseHeaderLine_split (k v : List Char) (h : ':' ∉ k) :
    parseHeaderLine (k ++ ':' :: v)
      = (k.filter (fun c => !cIsSpace c), v.filter (fun c => !cIsSpace c)) := by
  have hany : ((k ++ ':' :: v).any fun c => c = ':') = true := by
    simp [List.any_eq_true]
  simp only [parseHeaderLine, hany, if_true,
    takeWhile_ne_colon_append k v h, dropWhile_ne_colon_append k v h,
    List.drop_succ_cons, List.drop_zero]

/-- `findSub` for the blank-line separator skips over any block free of carriage
returns. -/
theorem findSub_crlf2_append (l suf : List Char) (h : ∀ c ∈ l, c ≠ '\r') :
    findSub crlf2 (l ++ suf) = (findSub crlf2 suf).map (· + l.length) := by
  induction l with
  | nil =>
    cases hs : findSub crlf2 suf <;> simp [hs]
  | cons c t ih =>
    have hc : c ≠ '\r' := h c (List.mem_cons_self c t)
    have hpre : isPrefixChars crlf2 (c :: (t ++ suf)) = false := by
      have : crlf2 = '\r' :: "\n\r\n".data := rfl
      rw [this]
      simp only [isPrefixChars]
      rw [if_neg (fun he => hc he.symm)]
    have ht : ∀ x ∈ t, x ≠ '\r' := fun x hx => h x (List.mem_cons_of_mem c hx)
    have hstep : findSub crlf2 ((c :: t) ++ suf)
        = if isPrefixChars crlf2 (c :: (t ++ suf)) = true then some 0
          else (findSub crlf2 (t ++ suf)).map (· + 1) := rfl
    rw [hstep, hpre]
    rw [if_neg (by simp)]
    rw [ih ht, List.length_cons]
    cases hs : findSub crlf2 suf
    · rfl
    · simp only [Option.map_some']
      rw [Option.some_inj, Nat.add_assoc]

theorem splitOnNl_no_nl (l : List Char) (h : '\n' ∉ l) : splitOnNl l = [l] := by
  induction l with
  | nil => rfl
  | cons c t ih =>
    have hc : c ≠ '\n' := fun he => h (he ▸ List.mem_cons_self c t)
    have ht : '\n' ∉ t := fun hm => h (List.mem_cons_of_mem c hm)
    simp [splitOnNl, hc, ih ht]

theorem getlines_single (l : List Char) (hne : l ≠ []) (h : '\n' ∉ l) :
    getlines l = [l] := by
  have hlast : l.getLast? ≠ some '\n' := by
    intro he
    obtain ⟨hl, hx⟩ := List.mem_getLast?_eq_getLast (by rw [he]; rfl)
    exact h (hx ▸ List.getLast_mem hl)
  simp [getlines, hne, hlast, splitOnNl_no_nl l h]

/-- C8 is false as stated: the parser does not merely strip leading and trailing
whitespace — it deletes internal whitespace too. In the concrete request
`GET / HTTP/1.1\r\nHost: my host\r\n\r\n` the header value `my host` (already
free of leading/trailing whitespace) is stored as `myhost`. -/
theorem c8_counterexample :
    (stringToRequest "GET / HTTP/1.1\r\nHost: my host\r\n\r\n".data).toOption.map
        (fun r => lookupHeader r.headers "Host".data)
      = some (some "myhost".data) ∧
    some "myhost".data ≠ some "my host".data := by
  constructor
  · decide
  · decide

/-- C8 as amended: for every header line `Key: Value` of a request, the parser
stores a header whose key and value equal the input key and value with EVERY
whitespace character removed — leading, trailing and internal alike (no other
transformation of the text). Stated over a full request around an arbitrary
line. -/
theorem c8_all_whitespace_removed (k v : List Char)
    (h1 : ':' ∉ k) (h2 : '\r' ∉ k) (h3 : '\n' ∉ k)
    (h4 : '\r' ∉ v) (h5 : '\n' ∉ v)
    (h6 : k.filter (fun c => !cIsSpace c) ≠ contentLengthKey) :
    ∃ r, stringToRequest
        ("GET / HTTP/1.1\r\n".data ++ ((k ++ ':' :: v) ++ crlf2)) = .ok r ∧
      lookupHeader r.headers (k.filter (fun c => !cIsSpace c))
        = some (v.filter (fun c => !cIsSpace c)) := by
  have hnocr : ∀ c ∈ k ++ ':' :: v, c ≠ '\r' := by
    intro c hc he
    subst he
    rcases List.mem_append.mp hc with hk | hv
    · exact h2 hk
    · rcases List.mem_cons.mp hv with hcolon | hv2
      · exact absurd hcolon (by decide)
      · exact h4 hv2
  have hfind2 : findSub crlf2 ((k ++ ':' :: v) ++ crlf2)
      = some ((k ++ ':' :: v).length) := by
    rw [findSub_crlf2_append _ _ hnocr]
    have h0 : findSub crlf2 crlf2 = some 0 := rfl
    rw [h0]
    simp
  have hnonl : '\n' ∉ k ++ ':' :: v := by
    intro hc
    rcases List.mem_append.mp hc with hk | hv
    · exact h3 hk
    · rcases List.mem_cons.mp hv with hcolon | hv2
      · exact absurd hcolon.symm (by decide)
      · exact h5 hv2
  have hlines : getlines (((k ++ ':' :: v) ++ crlf2).take
      ((k ++ ':' :: v).length)) = [k ++ ':' :: v] := by
    rw [List.take_left' rfl]
    exact getlines_single _ (by simp) hnonl
  have hbody : (((k ++ ':' :: v) ++ crlf2).drop ((k ++ ':' :: v).length + 4))
      = [] := by
    rw [← List.drop_drop, List.drop_left' rfl]
    rfl
  have hparse : stringToRequest
      ("GET / HTTP/1.1\r\n".data ++ ((k ++ ':' :: v) ++ crlf2))
      = .ok { method := .GET, uriPath := "/".data, version := .HTTP_1_1,
              headers := setHeader
                [(k.filter (fun c => !cIsSpace c),
                  v.filter (fun c => !cIsSpace c))]
                contentLengthKey (natDec 0),
              content := [] } := by
    rw [stringToRequest]
    rw [show findSub crlf ("GET / HTTP/1.1\r\n".data
        ++ ((k ++ ':' :: v) ++ crlf2)) = some 14 from rfl]
    simp only
    rw [show ("GET / HTTP/1.1\r\n".data
        ++ ((k ++ ':' :: v) ++ crlf2)).drop (14 + 2)
        = (k ++ ':' :: v) ++ crlf2 from rfl]
    rw [hfind2]
    simp only [hlines, hbody, List.foldl_cons, List.foldl_nil,
      parseHeaderLine_split k v h1]
    rfl
  refine ⟨_, hparse, ?_⟩
  rw [lookup_setHeader_ne _ _ _ _ h6]
  simp [setHeader, lookupHeader]

/-- Witness for C8 as amended, at a key and value with internal whitespace. -/
theorem c8_all_whitespace_removed_witness :
    ∃ r, stringToRequest
        ("GET / HTTP/1.1\r\n".data
          ++ (("X Key".data ++ ':' :: " my value ".data) ++ crlf2)) = .ok r ∧
      lookupHeader r.headers ("X Key".data.filter (fun c => !cIsSpace c))
        = some (" my value ".data.filter (fun c => !cIsSpace c)) :=
  c8_all_whitespace_removed "X Key".data " my value ".data (by decide)
    (by decide) (by decide) (by decide) (by decide) (by decide)

/-! ### C4: request-level errors become well-formed error responses -/

theorem except_ok_bind {ε α β : Type} (a : α) (f : α → Except ε β) :
    ((Except.ok a : Except ε α) >>= f) = f a :=
  rfl

/-- C4: request-level failures are converted to responses rather than
propagated. A parse failure of kind `std::invalid_argument` (malformed request)
yields a 400 BadRequest response carrying the diagnostic; a
`std::logic_error` — which the parser throws exactly when the declared version
parses to something other than the server's HTTP/1.1 — yields a 505
HttpVersionNotSupported response with the diagnostic in its body; a handler
exception of any other kind yields a 500 InternalServerError response carrying
the diagnostic; and for every non-empty read the connection always proceeds to
its write phase with some response registered. -/
theorem c4_request_error_responses (t : RoutingTable) (s msg : List Char)
    (req : HttpRequest) (rpos : Nat) (mtd : HttpMethod) (ver : HttpVersion) :
    (stringToRequest s = .error (.invalidArgument msg) →
      pipelineResponse t s = (setContent (mkResponse .BadRequest) msg, .GET)) ∧
    (stringToRequest s = .error (.logicError msg) →
      pipelineResponse t s
          = (setContent (mkResponse .HttpVersionNotSupported) msg, .GET) ∧
        statusCodeToNat (pipelineResponse t s).1.statusCode = 505 ∧
        (pipelineResponse t s).1.content = msg) ∧
    (findSub crlf s = some rpos →
      stringToMethod ((wsTokenize (s.take rpos)).getD 0 []) = .ok mtd →
      stringToVersion ((wsTokenize (s.take rpos)).getD 2 []) = .ok ver →
      ver ≠ .HTTP_1_1 →
      stringToRequest s
        = .error (.logicError "HTTP version not supported".data)) ∧
    (stringToRequest s = .ok req →
      HandleHttpResponse t req = .error (.otherException msg) →
      pipelineResponse t s
        = (setContent (mkResponse .InternalServerError) msg, req.method)) ∧
    (∀ (ed : EventData) (bs : List Char), bs ≠ [] →
      handleReadEvent t ed (.bytesRead bs)
        = .respond (mkResponseEvent t ed.fd (bufferToString bs))) := by
  refine ⟨?_, ?_, ?_, ?_, ?_⟩
  · intro h
    simp [pipelineResponse, h, errorResponse]
  · intro h
    simp [pipelineResponse, h, errorResponse, setContent, mkResponse,
      statusCodeToNat]
  · intro hf hm hv hne
    rw [stringToRequest, hf]
    simp only
    rw [hm]
    simp only [except_ok_bind]
    rw [hv]
    simp only [except_ok_bind]
    rw [if_pos hne]
    rfl
  · intro hp hh
    simp [pipelineResponse, hp, hh, errorResponse]
  · intro ed bs hne
    have : bs.length > 0 := List.length_pos.mpr hne
    simp [handleReadEvent, this]

/-- Witness for C4 on concrete requests: a buffer with no request line gives
400 with the parser diagnostic, a declared HTTP/2.0 version gives the 505 path,
and a throwing handler gives 500 with its message. -/
theorem c4_request_error_responses_witness :
    pipelineResponse [] "GET /".data
      = (setContent (mkResponse .BadRequest)
          "Could not find request start line".data, .GET) ∧
    stringToRequest "GET / HTTP/2.0\r\n\r\n".data
      = .error (.logicError "HTTP version not supported".data) ∧
    pipelineResponse
        (registerHttpRequestHandler [] "/".data .GET
          (fun _ => .error (.otherException "boom".data)))
        "GET / HTTP/1.1\r\n\r\n".data
      = (setContent (mkResponse .InternalServerError) "boom".data, .GET) := by
  refine ⟨?_, ?_, ?_⟩
  · exact (c4_request_error_responses [] "GET /".data
      "Could not find request start line".data {} 0 .GET .HTTP_1_1).1
      (by decide)
  · exact (c4_request_error_responses [] "GET / HTTP/2.0\r\n\r\n".data []
      {} 14 .GET .HTTP_2_0).2.2.1 (by decide) (by decide) (by decide)
      (by decide)
  · exact (c4_request_error_responses
      (registerHttpRequestHandler [] "/".data .GET
        (fun _ => .error (.otherException "boom".data)))
      "GET / HTTP/1.1\r\n\r\n".data "boom".data
      { method := .GET, uriPath := "/".data, version := .HTTP_1_1,
        headers := [(contentLengthKey, "0".data)], content := [] }
      0 .GET .HTTP_1_1).2.2.2.1 (by decide) (by rfl)

/-! ### C2: read-ready event handling -/

/-- C2: on a read-ready event, a positive read runs the pipeline and registers a
new state for write-interest on the same descriptor with `cursor = 0` and
`length` the encoded byte count (the buffer holds the encoded response whenever
it fits the `kMaxBufferSize` buffer); a zero read closes and retires; a
would-block error re-registers the same state for read-interest; any other
error closes and retires. -/
theorem c2_read_event_cases (t : RoutingTable) (req : EventData)
    (bs : List Char) :
    (bs ≠ [] →
      handleReadEvent t req (.bytesRead bs)
          = .respond (mkResponseEvent t req.fd (bufferToString bs)) ∧
      (mkResponseEvent t req.fd (bufferToString bs)).cursor = 0 ∧
      (mkResponseEvent t req.fd (bufferToString bs)).length
        = (handleHttpDataString t (bufferToString bs)).length ∧
      (mkResponseEvent t req.fd (bufferToString bs)).fd = req.fd ∧
      ((handleHttpDataString t (bufferToString bs)).length ≤ kMaxBufferSize →
        (mkResponseEvent t req.fd (bufferToString bs)).buffer
          = handleHttpDataString t (bufferToString bs))) ∧
    (handleReadEvent t req (.bytesRead []) = .closeRetire) ∧
    (handleReadEvent t req .wouldBlock = .retryRead req) ∧
    (handleReadEvent t req .otherError = .closeRetire) := by
  refine ⟨?_, by simp [handleReadEvent], by simp [handleReadEvent],
    by simp [handleReadEvent]⟩
  intro hne
  have hpos : bs.length > 0 := List.length_pos.mpr hne
  refine ⟨by simp [handleReadEvent, hpos], rfl, rfl, rfl, ?_⟩
  intro hfit
  simp only [mkResponseEvent]
  exact List.take_of_length_le hfit

/-- Witness for C2: a concrete GET request against the repository's hello-world
table yields a write-registered response state with cursor 0 and the encoded
byte count. -/
theorem c2_read_event_cases_witness :
    handleReadEvent
        (registerHttpRequestHandler [] "/".data .GET
          (fun _ => .ok (setContent (mkResponse .Ok) "Hello, world\n".data)))
        { fd := 9 } (.bytesRead "GET / HTTP/1.1\r\n\r\n".data)
      = .respond (mkResponseEvent
          (registerHttpRequestHandler [] "/".data .GET
            (fun _ => .ok (setContent (mkResponse .Ok) "Hello, world\n".data)))
          9 (bufferToString "GET / HTTP/1.1\r\n\r\n".data)) ∧
    (mkResponseEvent
        (registerHttpRequestHandler [] "/".data .GET
          (fun _ => .ok (setContent (mkResponse .Ok) "Hello, world\n".data)))
        9 (bufferToString "GET / HTTP/1.1\r\n\r\n".data)).cursor = 0 := by
  have h := c2_read_event_cases
    (registerHttpRequestHandler [] "/".data .GET
      (fun _ => .ok (setContent (mkResponse .Ok) "Hello, world\n".data)))
    { fd := 9 } "GET / HTTP/1.1\r\n\r\n".data
  exact ⟨(h.1 (by decide)).1, (h.1 (by decide)).2.1⟩

/-! ### C1: partial-send bookkeeping -/

theorem validPartialSends_sum_le :
    ∀ (ns : List Nat) (rem : Nat), validPartialSends rem ns → ns.sum ≤ rem
  | [], _, _ => by simp
  | n :: ns, rem, h => by
    obtain ⟨h1, h2⟩ := h
    have := validPartialSends_sum_le ns (rem - n) h2
    simp only [List.sum_cons]
    omega

/-- Invariants of a run of strictly partial sends: the buffer and descriptor are
unchanged, the cursor advances by exactly the accepted totals, the remaining
length shrinks by the same amount, and the transmitted bytes are exactly the
window of the buffer between the initial and final cursors. -/
theorem sendRun_partial :
    ∀ (ns : List Nat) (resp : EventData),
      validPartialSends resp.length ns →
      (sendRun resp ns).1.fd = resp.fd ∧
      (sendRun resp ns).1.buffer = resp.buffer ∧
      (sendRun resp ns).1.cursor = resp.cursor + ns.sum ∧
      (sendRun resp ns).1.length = resp.length - ns.sum ∧
      (sendRun resp ns).2 = (resp.buffer.drop resp.cursor).take ns.sum
  | [], resp, _ => by
    simp [sendRun]
  | n :: ns, resp, h => by
    obtain ⟨h1, h2⟩ := h
    have hstep : handleWriteEvent resp (.sent n)
        = .partialResend { resp with cursor := resp.cursor + n,
                                     length := resp.length - n } := by
      simp [handleWriteEvent, h1]
    have ih := sendRun_partial ns
      { resp with cursor := resp.cursor + n, length := resp.length - n } h2
    simp only [sendRun, hstep]
    obtain ⟨ihfd, ihbuf, ihcur, ihlen, ihtx⟩ := ih
    simp only at ihfd ihbuf ihcur ihlen ihtx
    refine ⟨ihfd, ihbuf, ?_, ?_, ?_⟩
    · rw [ihcur]
      simp only [List.sum_cons]
      omega
    · rw [ihlen]
      simp only [List.sum_cons]
      omega
    · rw [ihtx]
      simp only [List.sum_cons, sentChunk]
      rw [← List.drop_drop, ← List.take_add]

/-- A send run splits across list append as long as the first part is all
partial sends (a full send would end the write phase early). -/
theorem sendRun_append :
    ∀ (ns ms : List Nat) (resp : EventData),
      validPartialSends resp.length ns →
      sendRun resp (ns ++ ms)
        = ((sendRun (sendRun resp ns).1 ms).1,
           (sendRun resp ns).2 ++ (sendRun (sendRun resp ns).1 ms).2)
  | [], ms, resp, _ => by simp [sendRun]
  | n :: ns, ms, resp, h => by
    obtain ⟨h1, h2⟩ := h
    have hstep : handleWriteEvent resp (.sent n)
        = .partialResend { resp with cursor := resp.cursor + n,
                                     length := resp.length - n } := by
      simp [handleWriteEvent, h1]
    have ih := sendRun_append ns ms
      { resp with cursor := resp.cursor + n, length := resp.length - n } h2
    simp only [List.cons_append, sendRun, hstep, List.append_eq, ih,
      List.append_assoc]

/-- C1: for a response state with cursor 0 and length equal to the buffer, every
write-ready event accepting fewer bytes than remain advances the cursor and
decrements the remaining length by exactly the accepted count while
re-registering write-interest (`partialResend`); after any sequence of partial
sends the transmitted bytes are exactly the prefix `buffer[0..cursor)`, cursor
plus remaining length equals the original byte count, and a final send covering
the remainder delivers a byte sequence identical to the whole buffer. -/
theorem c1_partial_send_invariant (buf : List Char) (ns : List Nat) (fd : Nat)
    (hv : validPartialSends buf.length ns) :
    (∀ (r : EventData) (n : Nat), n < r.length →
      handleWriteEvent r (.sent n)
        = .partialResend { fd := r.fd, length := r.length - n,
                           cursor := r.cursor + n, buffer := r.buffer }) ∧
    (sendRun ⟨fd, buf.length, 0, buf⟩ ns).2
      = buf.take (sendRun ⟨fd, buf.length, 0, buf⟩ ns).1.cursor ∧
    (sendRun ⟨fd, buf.length, 0, buf⟩ ns).1.cursor
        + (sendRun ⟨fd, buf.length, 0, buf⟩ ns).1.length = buf.length ∧
    (sendRun ⟨fd, buf.length, 0, buf⟩
        (ns ++ [(sendRun ⟨fd, buf.length, 0, buf⟩ ns).1.length])).2 = buf := by
  have hsum := validPartialSends_sum_le ns buf.length hv
  obtain ⟨hfd, hbuf, hcur, hlen, htx⟩ :=
    sendRun_partial ns ⟨fd, buf.length, 0, buf⟩ hv
  refine ⟨?_, ?_, ?_, ?_⟩
  · intro r n hn
    simp [handleWriteEvent, hn]
  · rw [htx, hcur]
    simp
  · rw [hcur, hlen]
    simp only
    omega
  · rw [sendRun_append ns _ _ hv]
    set fin := (sendRun ⟨fd, buf.length, 0, buf⟩ ns).1 with hfin
    have hffull : handleWriteEvent fin (.sent fin.length)
        = .completeSwitchToRead { fd := fin.fd } := by
      simp [handleWriteEvent]
    have hfinal : sendRun fin [fin.length] = (fin, sentChunk fin fin.length) := by
      simp [sendRun, hffull]
    rw [hfinal]
    simp only [sentChunk]
    rw [htx, hcur, hbuf, hlen]
    simp only
    have h1 : (List.drop (0 + ns.sum) buf).take (buf.length - ns.sum)
        = List.drop (0 + ns.sum) buf := by
      apply List.take_of_length_le
      simp [List.length_drop]
    rw [h1]
    simp

/-- Witness for C1: the six-byte response `abcdef` sent in partial chunks of 2
and 1 byte transmits `ab` then `c`, and a final full send delivers the whole
buffer byte-identically. -/
theorem c1_partial_send_invariant_witness :
    (sendRun ⟨7, 6, 0, "abcdef".data⟩ [2, 1]).2
      = "abcdef".data.take (sendRun ⟨7, 6, 0, "abcdef".data⟩ [2, 1]).1.cursor ∧
    (sendRun ⟨7, 6, 0, "abcdef".data⟩
        ([2, 1] ++ [(sendRun ⟨7, 6, 0, "abcdef".data⟩ [2, 1]).1.length])).2
      = "abcdef".data := by
  have h := c1_partial_send_invariant "abcdef".data [2, 1] 7 (by decide)
  exact ⟨h.2.1, h.2.2.2⟩

/-! ### C7: round-robin distribution of accepted connections -/

theorem listenRegistrations_getElem :
    ∀ (outs : List AcceptOutcome) (w k : Nat), w < kThreadPoolSize →
      (listenRegistrations w outs)[k]?
        = ((acceptedFds outs)[k]?).map
            (fun fd => ((w + k) % kThreadPoolSize, fd))
  | [], w, k, _ => by simp [listenRegistrations, acceptedFds]
  | none :: rest, w, k, hw => by
    have hacc : acceptedFds (none :: rest) = acceptedFds rest := rfl
    have hreg : listenRegistrations w (none :: rest)
        = listenRegistrations w rest := rfl
    rw [hacc, hreg]
    exact listenRegistrations_getElem rest w k hw
  | some fd :: rest, w, k, hw => by
    have hw2 : (if w + 1 = kThreadPoolSize then 0 else w + 1)
        < kThreadPoolSize := by
      split
      · simp [kThreadPoolSize]
      · omega
    have hacc : acceptedFds (some fd :: rest) = fd :: acceptedFds rest := rfl
    have hreg : listenRegistrations w (some fd :: rest)
        = (w, fd) :: listenRegistrations
            (if w + 1 = kThreadPoolSize then 0 else w + 1) rest := rfl
    rw [hacc, hreg]
    cases k with
    | zero =>
      simp only [List.getElem?_cons_zero, Option.map_some']
      rw [Nat.add_zero, Nat.mod_eq_of_lt hw]
    | succ k =>
      have ih := listenRegistrations_getElem rest
        (if w + 1 = kThreadPoolSize then 0 else w + 1) k hw2
      simp only [List.getElem?_cons_succ]
      rw [ih]
      have harith : ((if w + 1 = kThreadPoolSize then 0 else w + 1) + k)
          % kThreadPoolSize = (w + (k + 1)) % kThreadPoolSize := by
        split
        · next heq =>
          simp only [kThreadPoolSize] at heq ⊢
          omega
        · next hne =>
          have : w + 1 + k = w + (k + 1) := by omega
          rw [this]
      rw [harith]

/-- C7: the k-th registration the listener performs (counting from zero) assigns
the k-th successfully accepted descriptor to worker `k mod kThreadPoolSize`, and
the registrations are exactly one per accepted connection, in accept order. -/
theorem c7_round_robin (outs : List AcceptOutcome) (k : Nat) :
    (listenRegistrations 0 outs)[k]?
      = ((acceptedFds outs)[k]?).map (fun fd => (k % kThreadPoolSize, fd)) ∧
    (listenRegistrations 0 outs).map Prod.snd = acceptedFds outs := by
  constructor
  · have h := listenRegistrations_getElem outs 0 k (by simp [kThreadPoolSize])
    simpa using h
  · apply List.ext_getElem?
    intro n
    have h := listenRegistrations_getElem outs 0 n (by simp [kThreadPoolSize])
    rw [List.getElem?_map, h]
    cases (acceptedFds outs)[n]? <;> simp

/-! ### C9: Stop joins every thread and closes every descriptor -/

/-- C9: before `Stop` returns it has joined the listener thread, joined every
worker thread, closed every worker's kqueue descriptor, and closed the
listening socket — all five workers are joined and closed and nothing is left
out of its trace. -/
theorem c9_stop_joins_and_closes :
    stopTrace
      = [StopAction.setRunningFalse, StopAction.joinListener,
         StopAction.joinWorker 0, StopAction.joinWorker 1,
         StopAction.joinWorker 2, StopAction.joinWorker 3,
         StopAction.joinWorker 4,
         StopAction.closeWorkerKqueue 0, StopAction.closeWorkerKqueue 1,
         StopAction.closeWorkerKqueue 2, StopAction.closeWorkerKqueue 3,
         StopAction.closeWorkerKqueue 4, StopAction.closeListenSocket] ∧
    (∀ i, i < kThreadPoolSize →
      StopAction.joinWorker i ∈ stopTrace ∧
      StopAction.closeWorkerKqueue i ∈ stopTrace) ∧
    StopAction.joinListener ∈ stopTrace ∧
    StopAction.closeListenSocket ∈ stopTrace := by
  refine ⟨by decide, ?_, by decide, by decide⟩
  intro i hi
  simp only [kThreadPoolSize] at hi
  interval_cases i <;> exact ⟨by decide, by decide⟩

/-- Witness for C9 at worker index 3. -/
theorem c9_stop_joins_and_closes_witness :
    StopAction.joinWorker 3 ∈ stopTrace ∧
    StopAction.closeWorkerKqueue 3 ∈ stopTrace :=
  c9_stop_joins_and_closes.2.1 3 (by decide)

end SimpleHttpServer
